import Mathlib

/-!
Shallow embedding of the `changeset` package of the zoedsoupe/exo
repository (Go).  Dynamic Go values are modelled by the inductive `Value`,
Go reflection type strings by `GoType`/`goTypeName`, and the
`Changeset[T]` record together with its chain operations (`Cast`,
`PutChange`, `UpdateChange`, `ValidateRequired`, `ValidateChange`,
`AddError`), the built-in validators, and the materializers
(`Apply`, `ApplyNew`) are translated function by function from the source.

Modelling conventions:
* Go maps (`changes`, `params`, `errors`, `validations`) become
  association lists with `lookup`/`upsert`; `upsert` overwrites the value
  of an existing key and appends a new key, which matches Go map
  assignment as observed through lookup, size and iteration set.
* Go `error` values are represented by their message strings.
* Payload and change values are non-nil dynamic values (a `nil`
  `interface{}` value would make the Go code panic inside
  `reflect.TypeOf(...).String()` before any behaviour the claims talk
  about); hence `reflect.ValueOf(v).IsValid()` is always true and the
  corresponding tests in `ValidateRequired`/`IsFieldMissing` reduce to
  key presence.
* The struct type parameter `T` is represented by its exported-field
  schema: a list of (field name, field type) pairs, and an instance of
  `T` by an association list assigning a value to each field.
  `reflect.StructField.Type.String()` is `goTypeName`,
  `reflect.TypeOf(v).String()` is `goTypeString`.  For the concrete
  (non-interface) types of this universe Go assignability coincides with
  type identity, which is how `AssignableTo` is translated.
-/

namespace Exo

/-- The Go types inhabited by the dynamic values of this development. -/
inductive GoType where
  | str
  | int
  | bool
  | slice
  | dict
deriving DecidableEq, Repr

/-- `reflect.Type.String()` for each modelled Go type: a Go slice of
`interface{}` prints as "[]interface \x7b\x7d" and a map as
"map[interface \x7b\x7d]interface \x7b\x7d"; in particular neither ever
equals the bare words "slice" or "map". -/
def goTypeName : GoType → String
  | .str => "string"
  | .int => "int"
  | .bool => "bool"
  | .slice => "[]interface \x7b\x7d"
  | .dict => "map[interface \x7b\x7d]interface \x7b\x7d"

/-- Dynamic Go values (`interface{}`) used by the repository: strings,
ints, bools, `[]interface{}` slices and `map[interface{}]interface{}`
maps. -/
inductive Value where
  | vstr (s : String)
  | vint (n : Int)
  | vbool (b : Bool)
  | vslice (elems : List Value)
  | vdict (entries : List (Value × Value))
deriving Repr

mutual

/-- Decidable structural equality on values (`reflect.DeepEqual`). -/
def decEqV : (a b : Value) → Decidable (a = b)
  | .vstr s, .vstr t =>
    match decEq s t with
    | isTrue h => isTrue (by rw [h])
    | isFalse h => isFalse (by intro he; cases he; exact h rfl)
  | .vint m, .vint n =>
    match decEq m n with
    | isTrue h => isTrue (by rw [h])
    | isFalse h => isFalse (by intro he; cases he; exact h rfl)
  | .vbool x, .vbool y =>
    match decEq x y with
    | isTrue h => isTrue (by rw [h])
    | isFalse h => isFalse (by intro he; cases he; exact h rfl)
  | .vslice xs, .vslice ys =>
    match decEqVL xs ys with
    | isTrue h => isTrue (by rw [h])
    | isFalse h => isFalse (by intro he; cases he; exact h rfl)
  | .vdict xs, .vdict ys =>
    match decEqVPL xs ys with
    | isTrue h => isTrue (by rw [h])
    | isFalse h => isFalse (by intro he; cases he; exact h rfl)
  | .vstr _, .vint _ => isFalse (fun h => Value.noConfusion h)
  | .vstr _, .vbool _ => isFalse (fun h => Value.noConfusion h)
  | .vstr _, .vslice _ => isFalse (fun h => Value.noConfusion h)
  | .vstr _, .vdict _ => isFalse (fun h => Value.noConfusion h)
  | .vint _, .vstr _ => isFalse (fun h => Value.noConfusion h)
  | .vint _, .vbool _ => isFalse (fun h => Value.noConfusion h)
  | .vint _, .vslice _ => isFalse (fun h => Value.noConfusion h)
  | .vint _, .vdict _ => isFalse (fun h => Value.noConfusion h)
  | .vbool _, .vstr _ => isFalse (fun h => Value.noConfusion h)
  | .vbool _, .vint _ => isFalse (fun h => Value.noConfusion h)
  | .vbool _, .vslice _ => isFalse (fun h => Value.noConfusion h)
  | .vbool _, .vdict _ => isFalse (fun h => Value.noConfusion h)
  | .vslice _, .vstr _ => isFalse (fun h => Value.noConfusion h)
  | .vslice _, .vint _ => isFalse (fun h => Value.noConfusion h)
  | .vslice _, .vbool _ => isFalse (fun h => Value.noConfusion h)
  | .vslice _, .vdict _ => isFalse (fun h => Value.noConfusion h)
  | .vdict _, .vstr _ => isFalse (fun h => Value.noConfusion h)
  | .vdict _, .vint _ => isFalse (fun h => Value.noConfusion h)
  | .vdict _, .vbool _ => isFalse (fun h => Value.noConfusion h)
  | .vdict _, .vslice _ => isFalse (fun h => Value.noConfusion h)
termination_by structural a => a

def decEqVP : (a b : Value × Value) → Decidable (a = b)
  | (a1, a2), (b1, b2) =>
    match decEqV a1 b1, decEqV a2 b2 with
    | isTrue h1, isTrue h2 => isTrue (by rw [h1, h2])
    | isFalse h1, _ => isFalse (by intro he; cases he; exact h1 rfl)
    | _, isFalse h2 => isFalse (by intro he; cases he; exact h2 rfl)
termination_by structural a => a

def decEqVL : (a b : List Value) → Decidable (a = b)
  | [], [] => isTrue rfl
  | [], _ :: _ => isFalse (fun h => List.noConfusion h)
  | _ :: _, [] => isFalse (fun h => List.noConfusion h)
  | x :: xs, y :: ys =>
    match decEqV x y, decEqVL xs ys with
    | isTrue h1, isTrue h2 => isTrue (by rw [h1, h2])
    | isFalse h1, _ => isFalse (by intro he; cases he; exact h1 rfl)
    | _, isFalse h2 => isFalse (by intro he; cases he; exact h2 rfl)
termination_by structural a => a

def decEqVPL : (a b : List (Value × Value)) → Decidable (a = b)
  | [], [] => isTrue rfl
  | [], _ :: _ => isFalse (fun h => List.noConfusion h)
  | _ :: _, [] => isFalse (fun h => List.noConfusion h)
  | x :: xs, y :: ys =>
    match decEqVP x y, decEqVPL xs ys with
    | isTrue h1, isTrue h2 => isTrue (by rw [h1, h2])
    | isFalse h1, _ => isFalse (by intro he; cases he; exact h1 rfl)
    | _, isFalse h2 => isFalse (by intro he; cases he; exact h2 rfl)
termination_by structural a => a

end

instance : DecidableEq Value := decEqV

/-- The dynamic type of a value. -/
def goTypeOf : Value → GoType
  | .vstr _ => .str
  | .vint _ => .int
  | .vbool _ => .bool
  | .vslice _ => .slice
  | .vdict _ => .dict

/-- `reflect.TypeOf(v).String()`. -/
def goTypeString (v : Value) : String :=
  goTypeName (goTypeOf v)

/-- Go map lookup `m[k]` (with its `ok` bit) on the association-list
model. -/
def lookup {α : Type} : List (String × α) → String → Option α
  | [], _ => none
  | (k, v) :: rest, key => if k = key then some v else lookup rest key

/-- Go map assignment `m[k] = v` on the association-list model:
overwrite the first binding of `k`, or append a fresh one. -/
def upsert {α : Type} : List (String × α) → String → α → List (String × α)
  | [], key, v => [(key, v)]
  | (k, w) :: rest, key, v =>
      if k = key then (key, v) :: rest else (k, w) :: upsert rest key v

/-- The built-in validators of the package.  Each constructor is one of
the `Validator` implementations of the source; the generic `Number`
validators are instantiated at the Go type `int` (modelled by `Int`),
which is the instantiation the repository itself exercises. -/
inductive Validator where
  | length (min max : Int)
  | format (pattern : String)
  | acceptance
  | exclusion (disallowed : List Value)
  | inclusion (allowed : List Value)
  | lessThan (maxValue : Int)
  | lessThanOrEqual (maxValue : Int)
  | greaterThan (minValue : Int)
  | greaterThanOrEqual (minValue : Int)
  | equalTo (value : Int)
  | notEqualTo (value : Int)
deriving DecidableEq, Repr

/-- One left-to-right pass substituting the `%s` and `%d` verbs by the
given strings (the format strings of `LengthValidator.Validate` use each
verb once, with `%s` first, so this agrees with `fmt`). -/
def substVerbs (fill num : String) : List Char → List Char
  | [] => []
  | '%' :: 's' :: rest => fill.data ++ substVerbs fill num rest
  | '%' :: 'd' :: rest => num.data ++ substVerbs fill num rest
  | ch :: rest => ch :: substVerbs fill num rest

/-- `fmt.Errorf(format, fill, n)` for the two-verb format strings of
`LengthValidator.Validate`; with the empty format string (the `default`
branch of the switch) Go prints the spare arguments in the
`%!(EXTRA ...)` form. -/
def fmtLength (format fill : String) (n : Int) : String :=
  if format = "" then "%!(EXTRA string=" ++ fill ++ ", int=" ++ toString n ++ ")"
  else String.mk (substVerbs fill (toString n) format.data)

/-- The `l` computed by `LengthValidator.Validate`: the switch is on
`reflect.TypeOf(v).String()` with cases `"string"`, `"slice"` and
`"map"`; only `"string"` can ever match (see `goTypeName`), every other
value falls to the `default` branch with `l = -1`. -/
def lengthCount (v : Value) : Int :=
  if goTypeString v = "string" then
    match v with
    | .vstr s => (s.utf8ByteSize : Int)
    | _ => -1
  else if goTypeString v = "slice" then
    match v with
    | .vslice l => (l.length : Int)
    | _ => -1
  else if goTypeString v = "map" then
    match v with
    | .vdict l => (l.length : Int)
    | _ => -1
  else -1

/-- The format string picked by the same switch (empty in the `default`
branch). -/
def lengthFormat (v : Value) : String :=
  if goTypeString v = "string" then "should be %s %d characters"
  else if goTypeString v = "slice" then "should have %s %d items"
  else if goTypeString v = "map" then "should have %s %d elements"
  else ""

/-- The loop of `ExclusionValidator.Validate`: it returns `(true, nil)`
as soon as one element of the list is not `DeepEqual` to the value, and
`(false, "is reserved")` only once the loop is exhausted. -/
def exclusionLoop (v : Value) : List Value → Bool × String
  | [] => (false, "is reserved")
  | d :: rest => if v ≠ d then (true, "") else exclusionLoop v rest

/-- The loop of `InclusionValidator.Validate`. -/
def inclusionLoop (v : Value) : List Value → Bool × String
  | [] => (false, "is invalid")
  | a :: rest => if v = a then (true, "") else inclusionLoop v rest

/-- A failed numeric type assertion `val.(T)` leaves `v` at the zero
value of `T`, so the Go message `"isn't a Number %v"` renders as
`"isn't a Number 0"`. -/
def notANumber : String := "isn\x27t a Number 0"

/-- `Validate(field, value)` of each built-in validator, returning the
`(bool, error-message)` pair of the source (the message is `""` where Go
returns a `nil` error).  The `field` argument is kept because the
interface passes it, although no built-in validator uses it. -/
def Validator.validate (v : Validator) (_field : String) (val : Value) : Bool × String :=
  match v with
  | .length lo hi =>
      let l := lengthCount val
      let msg := lengthFormat val
      if lo = hi ∧ l ≠ lo then (false, fmtLength msg "" lo)
      else if l < lo then (false, fmtLength msg "at least" lo)
      else if l > hi then (false, fmtLength msg "at most" hi)
      else (true, "")
  | .format pattern =>
      -- `FormatValidator` is modelled with substring containment in
      -- place of `regexp.FindString`; no claim concerns this validator.
      match val with
      | .vstr s => if (pattern.isPrefixOf s) ∨ pattern = "" then (true, "")
                   else (false, "has invalid format")
      | _ => (false, "is not a string")
  | .acceptance =>
      match val with
      | .vbool b => if b then (true, "") else (false, "must be accepted")
      | _ => (false, "isn\x27t a boolean")
  | .exclusion disallowed => exclusionLoop val disallowed
  | .inclusion allowed => inclusionLoop val allowed
  | .lessThan b =>
      match val with
      | .vint n =>
          if n > b then (false, "must be less than " ++ toString n) else (true, "")
      | _ => (false, notANumber)
  | .lessThanOrEqual b =>
      match val with
      | .vint n =>
          if n ≥ b then (false, "must be less than or equal to " ++ toString n)
          else (true, "")
      | _ => (false, notANumber)
  | .greaterThan b =>
      match val with
      | .vint n =>
          if n < b then (false, "must be greater than " ++ toString n) else (true, "")
      | _ => (false, notANumber)
  | .greaterThanOrEqual b =>
      match val with
      | .vint n =>
          if n ≤ b then (false, "must be greater than or equal to " ++ toString n)
          else (true, "")
      | _ => (false, notANumber)
  | .equalTo b =>
      match val with
      | .vint n =>
          if n = b then (true, "") else (false, "must be equal to " ++ toString n)
      | _ => (false, notANumber)
  | .notEqualTo b =>
      match val with
      | .vint n =>
          if n ≠ b then (true, "") else (false, "must be not equal to " ++ toString n)
      | _ => (false, notANumber)

/-- `Changeset[T]`.  The struct type parameter `T` is carried as the
`schema` field (the exported fields of `T` with their types, in
declaration order, as produced by `exo.StructFields`); `data` is the
instance of `T` stored at cast time. -/
structure Changeset where
  schema : List (String × GoType)
  changes : List (String × Value)
  params : List (String × Value)
  errors : List (String × String)
  validations : List (String × Validator)
  data : List (String × Value)
  isValid : Bool
deriving Repr

/-- The zero value of each modelled Go type (`var s T` initializes every
field to it; a slice or map field starts `nil`, modelled as empty). -/
def zeroValue : GoType → Value
  | .str => .vstr ""
  | .int => .vint 0
  | .bool => .vbool false
  | .slice => .vslice []
  | .dict => .vdict []

/-- One iteration of the field loop of `Cast`: skip an absent field,
record a `type mismatch` error (and clear `IsValid`) on a dynamic-type
disagreement, copy the value into `changes` otherwise.  The Go call
`c.AddError(field, msg)` discards its result but writes through the
shared `errors` map, so its net effect is the `errors` update below. -/
def castStep (params : List (String × Value)) (c : Changeset) (f : String × GoType) :
    Changeset :=
  match lookup params f.1 with
  | none => c
  | some change =>
      if goTypeString change ≠ goTypeName f.2 then
        { c with
            isValid := false
            errors := upsert c.errors f.1
              ("type mismatch: expect " ++ goTypeName f.2 ++ " got " ++ goTypeString change) }
      else { c with changes := upsert c.changes f.1 change }

/-- The `for _, f := range exo.StructFields(s)` loop of `Cast`. -/
def castLoop (params : List (String × Value)) :
    List (String × GoType) → Changeset → Changeset
  | [], c => c
  | f :: rest, c => castLoop params rest (castStep params c f)

/-- `Cast[T](params)`.  (The source panics when `T` is not a struct;
representing `T` by its field schema presupposes the struct case.) -/
def Cast (schema : List (String × GoType)) (params : List (String × Value)) : Changeset :=
  castLoop params schema
    { schema := schema
      changes := []
      params := params
      errors := []
      validations := []
      data := schema.map (fun f => (f.1, zeroValue f.2))
      isValid := true }

/-- `Changeset.AddError`: records the error (overwriting any prior error
for the field).  The source does not touch `IsValid` here. -/
def Changeset.AddError (c : Changeset) (field err : String) : Changeset :=
  { c with errors := upsert c.errors field err }

/-- `Changeset.PutChange`: the first schema field with the given name is
checked for assignability; an unknown field or a type mismatch records
an error and clears `IsValid`, otherwise `changes[field]` is
overwritten. -/
def Changeset.PutChange (c : Changeset) (field : String) (change : Value) : Changeset :=
  match c.schema.find? (fun f => f.1 == field) with
  | some sf =>
      if goTypeString change ≠ goTypeName sf.2 then
        { c with
            isValid := false
            errors := upsert c.errors field
              ("type mismatch, expected " ++ goTypeName sf.2 ++ " got " ++ goTypeString change) }
      else { c with changes := upsert c.changes field change }
  | none =>
      { c with
          isValid := false
          errors := upsert c.errors field (field ++ " is invalid") }

/-- `Changeset.UpdateChange`: the callback gets `c.changes[field]`
(`none` models the `nil` a Go map lookup yields for an absent key); a
callback error is recorded via `AddError` together with `IsValid =
false`, a returned value is routed through `PutChange`. -/
def Changeset.UpdateChange (c : Changeset) (field : String)
    (cb : Option Value → Except String Value) : Changeset :=
  match cb (lookup c.changes field) with
  | .error err => { c with errors := upsert c.errors field err, isValid := false }
  | .ok v => c.PutChange field v

/-- `Changeset.ValidateRequired`: for each requested field missing from
`changes`, clear `IsValid` and record `"is required"`.  (The source also
treats a `nil` value as missing via `reflect.ValueOf(...).IsValid()`;
the modelled values are never `nil`, so presence of the key decides.)
The loop body is the named function `requiredStep`. -/
def requiredStep (acc : Changeset) (field : String) : Changeset :=
  match lookup acc.changes field with
  | none =>
      { acc with
          isValid := false
          errors := upsert acc.errors field "is required" }
  | some _ => acc

def Changeset.ValidateRequired (c : Changeset) (need : List String) : Changeset :=
  need.foldl requiredStep c

/-- `Changeset.ValidateChange`: the validator is recorded in
`validations` unconditionally; a missing change yields a
`"doesn't exist"` error, a failed validation records the validator's
error, a successful one leaves the rest of the changeset unchanged. -/
def Changeset.ValidateChange (c : Changeset) (field : String) (v : Validator) : Changeset :=
  match lookup c.changes field with
  | none =>
      { c with
          validations := upsert c.validations field v
          errors := upsert c.errors field "doesn\x27t exist"
          isValid := false }
  | some val =>
      match v.validate field val with
      | (true, _) => { c with validations := upsert c.validations field v }
      | (false, err) =>
          { c with
              validations := upsert c.validations field v
              errors := upsert c.errors field err
              isValid := false }

/-- `Changeset.GetChange`. -/
def Changeset.GetChange (c : Changeset) (field : String) : Option Value :=
  lookup c.changes field

/-- `Changeset.GetError` (Go returns the map zero value `nil` for an
absent field, modelled by `none`). -/
def Changeset.GetError (c : Changeset) (field : String) : Option String :=
  lookup c.errors field

/-- `Changeset.ErrorJSON`: the field-keyed map of error message strings
(errors are already stored as their message strings in this model, so
the `err.Error()` conversion is the identity). -/
def Changeset.ErrorJSON (c : Changeset) : List (String × String) :=
  c.errors.map (fun p => (p.1, p.2))

/-- `Changeset.TraverseErrors`: the callback runs once per `errors`
entry and receives the changeset, the error, and `c.validations[field]`
— `none` models the `nil` interface value a Go map lookup yields when
`ValidateChange` never ran for that field. -/
def Changeset.TraverseErrors {α : Type} (c : Changeset)
    (cb : Changeset → String → Option Validator → α) : List (String × α) :=
  c.errors.map (fun p => (p.1, cb c p.2 (lookup c.validations p.1)))

/-- The body of the `for key, value := range c.changes` loop of `Apply`:
a key with no matching (exported) field slot on the target is skipped
silently; a value not assignable to the slot's type aborts with an
error changeset (previously assigned fields stay assigned); otherwise
the field is set.  The instance being written has type `T`, so the slot
lookup goes through the schema. -/
def applyLoop (c : Changeset) :
    List (String × Value) → List (String × Value) →
    List (String × Value) × Option Changeset
  | s, [] => (s, none)
  | s, (key, value) :: rest =>
      match c.schema.find? (fun f => f.1 == key) with
      | none => applyLoop c s rest
      | some sf =>
          if goTypeString value ≠ goTypeName sf.2 then
            (s, some (c.AddError key
              ("type mismatch expected " ++ key ++ " got " ++ goTypeString value)))
          else applyLoop c (upsert s key value) rest

/-- `Apply[T](s, c)`: an invalid changeset is returned as the error
immediately, with the target instance untouched; otherwise the changes
are assigned one by one.  The returned pair is (final instance, error),
the error being the changeset itself (`*Changeset` implements `error`).
The source panics unless `s` is a pointer to a struct, which the
representation presupposes. -/
def Apply (s : List (String × Value)) (c : Changeset) :
    List (String × Value) × Option Changeset :=
  if c.isValid then applyLoop c s c.changes else (s, some c)

/-- `ApplyNew[T](c)`: `Apply` on a copy of the instance stored at cast
time. -/
def ApplyNew (c : Changeset) : List (String × Value) × Option Changeset :=
  Apply c.data c

/-- The chain operations a changeset value admits after `Cast`, for
stating properties of whole call chains. -/
inductive ChainOp where
  | putChange (field : String) (change : Value)
  | updateChange (field : String) (cb : Option Value → Except String Value)
  | validateRequired (need : List String)
  | validateChange (field : String) (v : Validator)
  | addError (field err : String)

/-- Run one chain operation. -/
def Changeset.applyOp (c : Changeset) : ChainOp → Changeset
  | .putChange f v => c.PutChange f v
  | .updateChange f cb => c.UpdateChange f cb
  | .validateRequired need => c.ValidateRequired need
  | .validateChange f v => c.ValidateChange f v
  | .addError f e => c.AddError f e

/-- Run a chain of operations left to right. -/
def Changeset.applyOps (c : Changeset) (ops : List ChainOp) : Changeset :=
  ops.foldl Changeset.applyOp c

/-- The §3 invariant the spec states for every changeset: the validity
flag equals emptiness of the errors map. -/
def invariantHolds (c : Changeset) : Prop :=
  c.isValid = c.errors.isEmpty

section MapLemmas

variable {α : Type}

theorem lookup_upsert_self (m : List (String × α)) (k : String) (v : α) :
    lookup (upsert m k v) k = some v := by
  induction m with
  | nil => simp [upsert, lookup]
  | cons p rest ih =>
      obtain ⟨k2, w⟩ := p
      by_cases h : k2 = k
      · simp [upsert, h, lookup]
      · simp [upsert, h, lookup, ih]

theorem lookup_upsert_ne (m : List (String × α)) (k : String) (v : α) (k2 : String)
    (h : k ≠ k2) : lookup (upsert m k v) k2 = lookup m k2 := by
  induction m with
  | nil => simp [upsert, lookup, h]
  | cons p rest ih =>
      obtain ⟨k3, w⟩ := p
      by_cases h2 : k3 = k
      · simp [upsert, h2, lookup, h]
      · simp only [upsert, h2, if_false, lookup]
        by_cases h3 : k3 = k2 <;> simp [h3, ih]

theorem isEmpty_upsert (m : List (String × α)) (k : String) (v : α) :
    (upsert m k v).isEmpty = false := by
  cases m with
  | nil => simp [upsert]
  | cons p rest =>
      obtain ⟨k2, w⟩ := p
      by_cases h : k2 = k <;> simp [upsert, h]

theorem lookup_upsert_isSome (m : List (String × α)) (k : String) (v : α) (f : String)
    (h : (lookup m f).isSome = true) : (lookup (upsert m k v) f).isSome = true := by
  by_cases hk : k = f
  · subst hk; simp [lookup_upsert_self]
  · rw [lookup_upsert_ne m k v f hk]; exact h

end MapLemmas

theorem goTypeName_inj {a b : GoType} : goTypeName a = goTypeName b ↔ a = b := by
  cases a <;> cases b <;> decide

/-! Invariant preservation (`isValid = errors.isEmpty`) per operation. -/

theorem putChange_inv (c : Changeset) (f : String) (v : Value)
    (h : invariantHolds c) : invariantHolds (c.PutChange f v) := by
  unfold invariantHolds at *
  unfold Changeset.PutChange
  split
  · split
    · simp [isEmpty_upsert]
    · simpa using h
  · simp [isEmpty_upsert]

theorem updateChange_inv (c : Changeset) (f : String)
    (cb : Option Value → Except String Value)
    (h : invariantHolds c) : invariantHolds (c.UpdateChange f cb) := by
  unfold Changeset.UpdateChange
  split
  · simp [invariantHolds, isEmpty_upsert]
  · exact putChange_inv c f _ h

theorem requiredStep_inv (c : Changeset) (f : String)
    (h : invariantHolds c) : invariantHolds (requiredStep c f) := by
  unfold invariantHolds at *
  unfold requiredStep
  split
  · simp [isEmpty_upsert]
  · exact h

theorem validateRequired_inv (c : Changeset) (need : List String)
    (h : invariantHolds c) : invariantHolds (c.ValidateRequired need) := by
  unfold Changeset.ValidateRequired
  induction need generalizing c with
  | nil => simpa using h
  | cons a rest ih =>
      simp only [List.foldl_cons]
      exact ih _ (requiredStep_inv c a h)

theorem validateChange_inv (c : Changeset) (f : String) (v : Validator)
    (h : invariantHolds c) : invariantHolds (c.ValidateChange f v) := by
  unfold invariantHolds at *
  unfold Changeset.ValidateChange
  split
  · simp [isEmpty_upsert]
  · split
    · simpa using h
    · simp [isEmpty_upsert]

theorem castStep_inv (params : List (String × Value)) (c : Changeset) (f : String × GoType)
    (h : invariantHolds c) : invariantHolds (castStep params c f) := by
  unfold invariantHolds at *
  unfold castStep
  split
  · exact h
  · split
    · simp [isEmpty_upsert]
    · simpa using h

theorem castLoop_inv (params : List (String × Value)) (fields : List (String × GoType))
    (c : Changeset) (h : invariantHolds c) : invariantHolds (castLoop params fields c) := by
  induction fields generalizing c with
  | nil => simpa [castLoop] using h
  | cons f rest ih => exact ih _ (castStep_inv params c f h)

theorem cast_inv (schema : List (String × GoType)) (params : List (String × Value)) :
    invariantHolds (Cast schema params) :=
  castLoop_inv params schema _ rfl

/-! No operation ever turns an invalid changeset valid. -/

theorem putChange_keeps_invalid (c : Changeset) (f : String) (v : Value)
    (h : c.isValid = false) : (c.PutChange f v).isValid = false := by
  unfold Changeset.PutChange
  split
  · split
    · rfl
    · simpa using h
  · rfl

theorem updateChange_keeps_invalid (c : Changeset) (f : String)
    (cb : Option Value → Except String Value)
    (h : c.isValid = false) : (c.UpdateChange f cb).isValid = false := by
  unfold Changeset.UpdateChange
  split
  · rfl
  · exact putChange_keeps_invalid c f _ h

theorem requiredStep_keeps_invalid (c : Changeset) (f : String)
    (h : c.isValid = false) : (requiredStep c f).isValid = false := by
  unfold requiredStep
  split
  · rfl
  · exact h

theorem validateRequired_keeps_invalid (c : Changeset) (need : List String)
    (h : c.isValid = false) : (c.ValidateRequired need).isValid = false := by
  unfold Changeset.ValidateRequired
  induction need generalizing c with
  | nil => simpa using h
  | cons a rest ih =>
      simp only [List.foldl_cons]
      exact ih _ (requiredStep_keeps_invalid c a h)

theorem validateChange_keeps_invalid (c : Changeset) (f : String) (v : Validator)
    (h : c.isValid = false) : (c.ValidateChange f v).isValid = false := by
  unfold Changeset.ValidateChange
  split
  · rfl
  · split
    · simpa using h
    · rfl

theorem applyOp_keeps_invalid (c : Changeset) (op : ChainOp)
    (h : c.isValid = false) : (c.applyOp op).isValid = false := by
  cases op with
  | putChange f v => exact putChange_keeps_invalid c f v h
  | updateChange f cb => exact updateChange_keeps_invalid c f cb h
  | validateRequired need => exact validateRequired_keeps_invalid c need h
  | validateChange f v => exact validateChange_keeps_invalid c f v h
  | addError f e => exact h

/-! No operation removes an entry from the errors map. -/

theorem putChange_keeps_error (c : Changeset) (f : String) (v : Value) (f2 : String)
    (h : (lookup c.errors f2).isSome = true) :
    (lookup (c.PutChange f v).errors f2).isSome = true := by
  unfold Changeset.PutChange
  split
  · split
    · exact lookup_upsert_isSome _ _ _ _ h
    · simpa using h
  · exact lookup_upsert_isSome _ _ _ _ h

theorem updateChange_keeps_error (c : Changeset) (f : String)
    (cb : Option Value → Except String Value) (f2 : String)
    (h : (lookup c.errors f2).isSome = true) :
    (lookup (c.UpdateChange f cb).errors f2).isSome = true := by
  unfold Changeset.UpdateChange
  split
  · exact lookup_upsert_isSome _ _ _ _ h
  · exact putChange_keeps_error c f _ f2 h

theorem requiredStep_keeps_error (c : Changeset) (f : String) (f2 : String)
    (h : (lookup c.errors f2).isSome = true) :
    (lookup (requiredStep c f).errors f2).isSome = true := by
  unfold requiredStep
  split
  · exact lookup_upsert_isSome _ _ _ _ h
  · exact h

theorem validateRequired_keeps_error (c : Changeset) (need : List String) (f2 : String)
    (h : (lookup c.errors f2).isSome = true) :
    (lookup (c.ValidateRequired need).errors f2).isSome = true := by
  unfold Changeset.ValidateRequired
  induction need generalizing c with
  | nil => simpa using h
  | cons a rest ih =>
      simp only [List.foldl_cons]
      exact ih _ (requiredStep_keeps_error c a f2 h)

theorem validateChange_keeps_error (c : Changeset) (f : String) (v : Validator) (f2 : String)
    (h : (lookup c.errors f2).isSome = true) :
    (lookup (c.ValidateChange f v).errors f2).isSome = true := by
  unfold Changeset.ValidateChange
  split
  · exact lookup_upsert_isSome _ _ _ _ h
  · split
    · simpa using h
    · exact lookup_upsert_isSome _ _ _ _ h

theorem applyOp_keeps_error (c : Changeset) (op : ChainOp) (f2 : String)
    (h : (lookup c.errors f2).isSome = true) :
    (lookup (c.applyOp op).errors f2).isSome = true := by
  cases op with
  | putChange f v => exact putChange_keeps_error c f v f2 h
  | updateChange f cb => exact updateChange_keeps_error c f cb f2 h
  | validateRequired need => exact validateRequired_keeps_error c need f2 h
  | validateChange f v => exact validateChange_keeps_error c f v f2 h
  | addError f e => exact lookup_upsert_isSome _ _ _ _ h

/-! Field-wise tracking of the `Cast` loop. -/

theorem castStep_changes_ne (params : List (String × Value)) (c : Changeset)
    (f : String × GoType) (field : String) (h : f.1 ≠ field) :
    lookup (castStep params c f).changes field = lookup c.changes field := by
  unfold castStep
  split
  · rfl
  · split
    · rfl
    · simp [lookup_upsert_ne _ _ _ _ h]

theorem castStep_errors_ne (params : List (String × Value)) (c : Changeset)
    (f : String × GoType) (field : String) (h : f.1 ≠ field) :
    lookup (castStep params c f).errors field = lookup c.errors field := by
  unfold castStep
  split
  · rfl
  · split
    · simp [lookup_upsert_ne _ _ _ _ h]
    · rfl

theorem castLoop_changes_not_mem (params : List (String × Value))
    (fields : List (String × GoType)) (c : Changeset) (field : String)
    (h : field ∉ fields.map Prod.fst) :
    lookup (castLoop params fields c).changes field = lookup c.changes field := by
  induction fields generalizing c with
  | nil => rfl
  | cons f rest ih =>
      simp only [List.map_cons, List.mem_cons, not_or] at h
      rw [castLoop, ih _ (fun hm => h.2 hm),
        castStep_changes_ne params c f field (fun he => h.1 he.symm)]

theorem castLoop_errors_not_mem (params : List (String × Value))
    (fields : List (String × GoType)) (c : Changeset) (field : String)
    (h : field ∉ fields.map Prod.fst) :
    lookup (castLoop params fields c).errors field = lookup c.errors field := by
  induction fields generalizing c with
  | nil => rfl
  | cons f rest ih =>
      simp only [List.map_cons, List.mem_cons, not_or] at h
      rw [castLoop, ih _ (fun hm => h.2 hm),
        castStep_errors_ne params c f field (fun he => h.1 he.symm)]

theorem castStep_params_absent (params : List (String × Value)) (c : Changeset)
    (f : String × GoType) (h : lookup params f.1 = none) :
    castStep params c f = c := by
  unfold castStep
  rw [h]

theorem castLoop_params_absent_changes (params : List (String × Value))
    (fields : List (String × GoType)) (c : Changeset) (field : String)
    (h : lookup params field = none) :
    lookup (castLoop params fields c).changes field = lookup c.changes field := by
  induction fields generalizing c with
  | nil => rfl
  | cons f rest ih =>
      rw [castLoop, ih]
      by_cases he : f.1 = field
      · rw [castStep_params_absent params c f (he ▸ h)]
      · exact castStep_changes_ne params c f field he

theorem castLoop_params_absent_errors (params : List (String × Value))
    (fields : List (String × GoType)) (c : Changeset) (field : String)
    (h : lookup params field = none) :
    lookup (castLoop params fields c).errors field = lookup c.errors field := by
  induction fields generalizing c with
  | nil => rfl
  | cons f rest ih =>
      rw [castLoop, ih]
      by_cases he : f.1 = field
      · rw [castStep_params_absent params c f (he ▸ h)]
      · exact castStep_errors_ne params c f field he

theorem castLoop_keeps_invalid (params : List (String × Value))
    (fields : List (String × GoType)) (c : Changeset) (h : c.isValid = false) :
    (castLoop params fields c).isValid = false := by
  induction fields generalizing c with
  | nil => simpa [castLoop] using h
  | cons f rest ih =>
      refine ih _ ?_
      unfold castStep
      split
      · exact h
      · split
        · rfl
        · simpa using h

/-- The cast loop on a schema containing `(field, t)` exactly once, when
the payload holds a type-mismatching value for `field`: the value is not
copied, the `type mismatch` error is recorded, validity is cleared. -/
theorem castLoop_mismatch (params : List (String × Value))
    (fields : List (String × GoType)) (c : Changeset) (field : String) (t : GoType)
    (v : Value) (hmem : (field, t) ∈ fields) (hnd : (fields.map Prod.fst).Nodup)
    (hp : lookup params field = some v) (hty : goTypeString v ≠ goTypeName t) :
    lookup (castLoop params fields c).changes field = lookup c.changes field ∧
    lookup (castLoop params fields c).errors field =
      some ("type mismatch: expect " ++ goTypeName t ++ " got " ++ goTypeString v) ∧
    (castLoop params fields c).isValid = false := by
  induction fields generalizing c with
  | nil => cases hmem
  | cons g rest ih =>
      simp only [List.map_cons, List.nodup_cons] at hnd
      rcases List.mem_cons.mp hmem with hg | hrest
      · subst hg
        rw [castLoop]
        have hstep : castStep params c (field, t) =
            { c with
                isValid := false
                errors := upsert c.errors field
                  ("type mismatch: expect " ++ goTypeName t ++ " got " ++ goTypeString v) } := by
          unfold castStep
          rw [hp]
          simp [hty]
        rw [hstep]
        refine ⟨?_, ?_, ?_⟩
        · rw [castLoop_changes_not_mem params rest _ field hnd.1]
        · rw [castLoop_errors_not_mem params rest _ field hnd.1]
          exact lookup_upsert_self _ _ _
        · exact castLoop_keeps_invalid params rest _ rfl
      · have hne : g.1 ≠ field := by
          intro he
          exact hnd.1 (he ▸ List.mem_map_of_mem Prod.fst hrest)
        rw [castLoop]
        obtain ⟨h1, h2, h3⟩ := ih _ hrest hnd.2
        exact ⟨h1.trans (castStep_changes_ne params c g field hne), h2, h3⟩

/-- The cast loop on a schema containing `(field, t)`, when the payload
holds a value of the declared type for `field`: the value is copied into
`changes`. -/
theorem castLoop_match (params : List (String × Value))
    (fields : List (String × GoType)) (c : Changeset) (field : String) (t : GoType)
    (v : Value) (hmem : (field, t) ∈ fields) (hnd : (fields.map Prod.fst).Nodup)
    (hp : lookup params field = some v) (hty : goTypeString v = goTypeName t) :
    lookup (castLoop params fields c).changes field = some v ∧
    lookup (castLoop params fields c).errors field = lookup c.errors field := by
  induction fields generalizing c with
  | nil => cases hmem
  | cons g rest ih =>
      simp only [List.map_cons, List.nodup_cons] at hnd
      rcases List.mem_cons.mp hmem with hg | hrest
      · subst hg
        rw [castLoop]
        have hstep : castStep params c (field, t) =
            { c with changes := upsert c.changes field v } := by
          unfold castStep
          rw [hp]
          simp [hty]
        rw [hstep]
        constructor
        · rw [castLoop_changes_not_mem params rest _ field hnd.1]
          exact lookup_upsert_self _ _ _
        · rw [castLoop_errors_not_mem params rest _ field hnd.1]
      · have hne : g.1 ≠ field := by
          intro he
          exact hnd.1 (he ▸ List.mem_map_of_mem Prod.fst hrest)
        rw [castLoop]
        obtain ⟨h1, h2⟩ := ih _ hrest hnd.2
        exact ⟨h1, h2.trans (castStep_errors_ne params c g field hne)⟩

/-- Any key present in `changes` after the cast loop was either written
by it (hence is a schema field name) or was present before. -/
theorem castLoop_changes_subset (params : List (String × Value))
    (fields : List (String × GoType)) (c : Changeset) (field : String)
    (h : lookup (castLoop params fields c).changes field ≠ none) :
    field ∈ fields.map Prod.fst ∨ lookup c.changes field ≠ none := by
  induction fields generalizing c with
  | nil => exact .inr h
  | cons g rest ih =>
      rw [castLoop] at h
      rcases ih _ h with hm | hpre
      · exact .inl (List.mem_cons_of_mem _ hm)
      · by_cases he : g.1 = field
        · exact .inl (List.mem_cons.mpr (.inl he.symm))
        · exact .inr ((castStep_changes_ne params c g field he) ▸ hpre)

theorem castStep_validations (params : List (String × Value)) (c : Changeset)
    (f : String × GoType) : (castStep params c f).validations = c.validations := by
  unfold castStep
  split
  · rfl
  · split <;> rfl

theorem castLoop_validations (params : List (String × Value))
    (fields : List (String × GoType)) (c : Changeset) :
    (castLoop params fields c).validations = c.validations := by
  induction fields generalizing c with
  | nil => rfl
  | cons f rest ih => rw [castLoop, ih, castStep_validations]

theorem cast_validations (schema : List (String × GoType))
    (params : List (String × Value)) : (Cast schema params).validations = [] := by
  unfold Cast
  rw [castLoop_validations]

/-! `ValidateRequired` bookkeeping. -/

theorem requiredStep_changes (c : Changeset) (f : String) :
    (requiredStep c f).changes = c.changes := by
  unfold requiredStep
  split <;> rfl

theorem validateRequired_changes (c : Changeset) (need : List String) :
    (c.ValidateRequired need).changes = c.changes := by
  unfold Changeset.ValidateRequired
  induction need generalizing c with
  | nil => rfl
  | cons a rest ih =>
      simp only [List.foldl_cons]
      rw [ih, requiredStep_changes]

theorem requiredStep_keeps_required (c : Changeset) (f : String) (field : String)
    (h : lookup c.errors field = some "is required") :
    lookup (requiredStep c f).errors field = some "is required" := by
  unfold requiredStep
  split
  · by_cases he : f = field
    · subst he; exact lookup_upsert_self _ _ _
    · rw [lookup_upsert_ne _ _ _ _ he]; exact h
  · exact h

theorem validateRequired_keeps_required (c : Changeset) (need : List String)
    (field : String) (h : lookup c.errors field = some "is required") :
    lookup (c.ValidateRequired need).errors field = some "is required" := by
  unfold Changeset.ValidateRequired
  induction need generalizing c with
  | nil => simpa using h
  | cons a rest ih =>
      simp only [List.foldl_cons]
      exact ih _ (requiredStep_keeps_required c a field h)

/-! Lookup through an entry-wise map, for `TraverseErrors`. -/

theorem lookup_map_entries {β α : Type} (g : String → β → α) (l : List (String × β))
    (k : String) :
    lookup (l.map (fun p => (p.1, g p.1 p.2))) k = Option.map (g k) (lookup l k) := by
  induction l with
  | nil => rfl
  | cons p rest ih =>
      obtain ⟨k2, w⟩ := p
      by_cases h : k2 = k
      · subst h; simp [lookup]
      · simp [lookup, h, ih]

/-- The schema of the test struct `T { A string; B int }` of the
repository, used as concrete input for witnesses and counterexamples. -/
def demoSchema : List (String × GoType) := [("A", .str), ("B", .int)]

/-- C1, counterexample: `AddError` records the error but does not clear
`IsValid`, so after `Cast` (valid, no errors) followed by `AddError` the
errors map is non-empty while the validity flag is still true — the
claimed invariant `isValid == (errors is empty)` fails after this
operation. -/
theorem C1_counterexample :
    ((Cast demoSchema []).AddError "A" "boom").isValid = true ∧
    ((Cast demoSchema []).AddError "A" "boom").errors ≠ [] := by
  decide

/-- C1 (amended): after `Cast` and after each of `PutChange`,
`UpdateChange`, `ValidateRequired` and `ValidateChange` (applied to a
changeset already satisfying it) the validity flag equals emptiness of
the errors map; `AddError` always records the given error but leaves
`isValid` unchanged, so it is the one operation that can break the
equality; and no operation removes entries from `errors`. -/
theorem C1_invariant_amended (c : Changeset) (hinv : invariantHolds c)
    (field : String) (change : Value) (cb : Option Value → Except String Value)
    (need : List String) (v : Validator) (err : String) (op : ChainOp) (f2 : String) :
    invariantHolds (c.PutChange field change) ∧
    invariantHolds (c.UpdateChange field cb) ∧
    invariantHolds (c.ValidateRequired need) ∧
    invariantHolds (c.ValidateChange field v) ∧
    (∀ schema params, invariantHolds (Cast schema params)) ∧
    lookup (c.AddError field err).errors field = some err ∧
    (c.AddError field err).isValid = c.isValid ∧
    ((lookup c.errors f2).isSome = true → (lookup (c.applyOp op).errors f2).isSome = true) :=
  ⟨putChange_inv c field change hinv,
   updateChange_inv c field cb hinv,
   validateRequired_inv c need hinv,
   validateChange_inv c field v hinv,
   fun schema params => cast_inv schema params,
   lookup_upsert_self _ _ _,
   rfl,
   applyOp_keeps_error c op f2⟩

/-- C1 witness: the amended statement at the changeset cast from the
empty payload. -/
theorem C1_invariant_amended_witness :
    invariantHolds ((Cast demoSchema []).PutChange "A" (Value.vstr "x")) :=
  (C1_invariant_amended (Cast demoSchema []) rfl "A" (Value.vstr "x")
    (fun _ => .ok (Value.vstr "x")) [] .acceptance "boom" (.addError "A" "b") "A").1

/-- C2, counterexample: casting `{"A": 123}` against `{A: string}`
records the message `"type mismatch: expect string got int"`, not the
claimed form `"type mismatch: expected string, got int"`. -/
theorem C2_counterexample :
    lookup (Cast demoSchema [("A", Value.vint 123)]).errors "A" =
      some "type mismatch: expect string got int" ∧
    lookup (Cast demoSchema [("A", Value.vint 123)]).errors "A" ≠
      some "type mismatch: expected string, got int" := by
  decide

/-- C2 (amended): for every payload and struct schema (with its field
names distinct, as in a Go struct), `Cast` produces a changeset whose
`changes` contains exactly the declared fields present in the payload
with a value of the declared dynamic type; a declared field absent from
the payload is skipped without error; a declared field present with a
mismatching type is not copied, gets the error
`"type mismatch: expect <declaredType> got <actualType>"` and makes the
changeset invalid; no key outside the schema appears in `changes`. -/
theorem C2_cast_filtering (schema : List (String × GoType))
    (params : List (String × Value)) (hnd : (schema.map Prod.fst).Nodup)
    (field : String) (t : GoType) (v : Value) :
    ((field, t) ∈ schema → lookup params field = some v → goTypeOf v ≠ t →
      lookup (Cast schema params).changes field = none ∧
      (Cast schema params).isValid = false ∧
      lookup (Cast schema params).errors field =
        some ("type mismatch: expect " ++ goTypeName t ++ " got " ++ goTypeString v)) ∧
    ((field, t) ∈ schema → lookup params field = none →
      lookup (Cast schema params).changes field = none ∧
      lookup (Cast schema params).errors field = none) ∧
    ((field, t) ∈ schema → lookup params field = some v → goTypeOf v = t →
      lookup (Cast schema params).changes field = some v) ∧
    (lookup (Cast schema params).changes field ≠ none → field ∈ schema.map Prod.fst) := by
  refine ⟨?_, ?_, ?_, ?_⟩
  · intro hmem hp hty
    have hty2 : goTypeString v ≠ goTypeName t := by
      rw [goTypeString]
      exact fun he => hty (goTypeName_inj.mp he)
    obtain ⟨h1, h2, h3⟩ := castLoop_mismatch params schema _ field t v hmem hnd hp hty2
    exact ⟨h1, h3, h2⟩
  · intro hmem hp
    exact ⟨castLoop_params_absent_changes params schema _ field hp,
           castLoop_params_absent_errors params schema _ field hp⟩
  · intro hmem hp hty
    have hty2 : goTypeString v = goTypeName t := by
      rw [goTypeString, hty]
    exact (castLoop_match params schema _ field t v hmem hnd hp hty2).1
  · intro h
    rcases castLoop_changes_subset params schema _ field h with hm | hpre
    · exact hm
    · exact absurd rfl hpre

/-- C2 witness: the amended statement at schema `{A: string, B: int}`
and payload `{"A": 123}` (mismatch branch). -/
theorem C2_cast_filtering_witness :
    lookup (Cast demoSchema [("A", Value.vint 123)]).changes "A" = none ∧
    (Cast demoSchema [("A", Value.vint 123)]).isValid = false ∧
    lookup (Cast demoSchema [("A", Value.vint 123)]).errors "A" =
      some ("type mismatch: expect " ++ goTypeName .str ++ " got " ++
        goTypeString (Value.vint 123)) :=
  (C2_cast_filtering demoSchema [("A", Value.vint 123)] (by decide) "A" .str
    (Value.vint 123)).1 (by decide) (by decide) (by decide)

/-- C3: on an invalid changeset, `Apply` fails immediately and returns
the target instance untouched, `ApplyNew` returns the stored zero
instance unmodified, and the aggregate error is the changeset itself,
whose field-keyed error map exposes every recorded per-field error. -/
theorem C3_apply_rejects_invalid (s : List (String × Value)) (c : Changeset)
    (h : c.isValid = false) :
    Apply s c = (s, some c) ∧
    ApplyNew c = (c.data, some c) ∧
    (∀ f e, lookup c.errors f = some e → lookup c.ErrorJSON f = some e) := by
  refine ⟨?_, ?_, ?_⟩
  · unfold Apply
    rw [h]
    simp
  · unfold ApplyNew Apply
    rw [h]
    simp
  · intro f e he
    unfold Changeset.ErrorJSON
    have := lookup_map_entries (fun _ e2 => e2) c.errors f
    rw [he] at this
    exact this

/-- C3 witness: the statement at a changeset invalidated by a cast-time
type mismatch and an arbitrary concrete target instance. -/
theorem C3_apply_rejects_invalid_witness :
    Apply [("A", Value.vstr "z"), ("B", Value.vint 9)]
        (Cast demoSchema [("A", Value.vint 123)]) =
      ([("A", Value.vstr "z"), ("B", Value.vint 9)],
        some (Cast demoSchema [("A", Value.vint 123)])) :=
  (C3_apply_rejects_invalid [("A", Value.vstr "z"), ("B", Value.vint 9)]
    (Cast demoSchema [("A", Value.vint 123)]) (by decide)).1

/-- C4: code bug — the exclusion loop returns success as soon as any
single element of the disallowed list differs from the value, so
`vint 1`, a member of the two-element disallowed list `[1, 2]`, passes
validation; the claim (and the validator's own documentation) requires
it to fail.  Only against a singleton list does the code reject a
member. -/
theorem C4_exclusion_eval :
    (Validator.exclusion [Value.vint 1, Value.vint 2]).validate "A" (Value.vint 1)
      = (true, "") ∧
    Value.vint 1 ∈ [Value.vint 1, Value.vint 2] ∧
    (Validator.exclusion [Value.vint 1]).validate "A" (Value.vint 1)
      = (false, "is reserved") := by
  decide

/-- C5: code bug — the strict and non-strict comparisons are swapped:
at `v = b` the `LessThan` and `GreaterThan` validators pass (the claim
requires failure) while `LessThanOrEqual` and `GreaterThanOrEqual` fail
(the claim requires success); moreover the failure messages embed the
offending value, not the bound, and never name the field.  `EqualTo`
and `NotEqualTo` behave as claimed at this input. -/
theorem C5_numeric_eval :
    (Validator.lessThan 5).validate "A" (Value.vint 5) = (true, "") ∧
    (Validator.lessThanOrEqual 5).validate "A" (Value.vint 5)
      = (false, "must be less than or equal to 5") ∧
    (Validator.greaterThan 5).validate "A" (Value.vint 5) = (true, "") ∧
    (Validator.greaterThanOrEqual 5).validate "A" (Value.vint 5)
      = (false, "must be greater than or equal to 5") ∧
    (Validator.equalTo 5).validate "A" (Value.vint 5) = (true, "") ∧
    (Validator.notEqualTo 5).validate "A" (Value.vint 5)
      = (false, "must be not equal to 5") := by
  decide

/-- C6: code bug — the length validator switches on the reflected type
STRING against the literals `"slice"` and `"map"`, which a Go type
string never equals, so a one-element slice fails the `Min = Max = 1`
check that the claim (and the validator's documentation, which promises
support for string, slice and map) requires to pass; strings behave as
claimed. -/
theorem C6_length_eval :
    (Validator.length 1 1).validate "A" (Value.vslice [Value.vint 0])
      = (false, "%!(EXTRA string=, int=1)") ∧
    (Validator.length 5 5).validate "A" (Value.vstr "hello") = (true, "") ∧
    (Validator.length 4 4).validate "A" (Value.vstr "hello")
      = (false, "should be  4 characters") ∧
    (Validator.length 2 6).validate "A" (Value.vstr "hello") = (true, "") := by
  decide

/-- Successful `PutChange`: with a schema field of the value's type
found, the only effect is overwriting `changes[field]`. -/
theorem putChange_success (c : Changeset) (field : String) (x : Value)
    (sf : String × GoType) (hsf : c.schema.find? (fun f => f.1 == field) = some sf)
    (hty : goTypeOf x = sf.2) :
    c.PutChange field x = { c with changes := upsert c.changes field x } := by
  unfold Changeset.PutChange
  rw [hsf]
  dsimp only
  have h : ¬ (goTypeString x ≠ goTypeName sf.2) := by
    rw [goTypeString, hty]
    exact fun h2 => h2 rfl
  rw [if_neg h]

/-- C7: `PutChange` on a field outside the schema records the
`"<field> is invalid"` error and invalidates without writing `changes`;
on a declared field with a value of the wrong dynamic type it records a
`"type mismatch, expected ... got ..."` error and invalidates without
writing; on a declared field with a value of the declared type it
overwrites unconditionally, so two successive `PutChange` on the same
field leave the second value. -/
theorem C7_putChange (c : Changeset) (field : String) (x y : Value) :
    (c.schema.find? (fun f => f.1 == field) = none →
      (c.PutChange field x).isValid = false ∧
      lookup (c.PutChange field x).errors field = some (field ++ " is invalid") ∧
      (c.PutChange field x).changes = c.changes) ∧
    (∀ sf, c.schema.find? (fun f => f.1 == field) = some sf → goTypeOf x ≠ sf.2 →
      (c.PutChange field x).isValid = false ∧
      lookup (c.PutChange field x).errors field =
        some ("type mismatch, expected " ++ goTypeName sf.2 ++ " got " ++ goTypeString x) ∧
      (c.PutChange field x).changes = c.changes) ∧
    (∀ sf, c.schema.find? (fun f => f.1 == field) = some sf →
      goTypeOf x = sf.2 → goTypeOf y = sf.2 →
      lookup (c.PutChange field x).changes field = some x ∧
      lookup ((c.PutChange field x).PutChange field y).changes field = some y) := by
  refine ⟨?_, ?_, ?_⟩
  · intro hnone
    unfold Changeset.PutChange
    rw [hnone]
    exact ⟨rfl, lookup_upsert_self _ _ _, rfl⟩
  · intro sf hsf hty
    unfold Changeset.PutChange
    rw [hsf]
    dsimp only
    have h : goTypeString x ≠ goTypeName sf.2 := by
      rw [goTypeString]
      exact fun he => hty (goTypeName_inj.mp he)
    rw [if_pos h]
    exact ⟨rfl, lookup_upsert_self _ _ _, rfl⟩
  · intro sf hsf htyx htyy
    have e1 := putChange_success c field x sf hsf htyx
    have hsf2 : (c.PutChange field x).schema.find? (fun f => f.1 == field) = some sf := by
      rw [e1]
      exact hsf
    have e2 := putChange_success (c.PutChange field x) field y sf hsf2 htyy
    constructor
    · rw [e1]
      exact lookup_upsert_self _ _ _
    · rw [e2, e1]
      exact lookup_upsert_self _ _ _

/-- C7 witness: at the demo schema, writing `"oi"` then `"tchau"` to the
string field `A` leaves `"tchau"`; writing to the undeclared field `C`
or writing a string to the int field `B` invalidates with the
corresponding error. -/
theorem C7_putChange_witness :
    lookup (((Cast demoSchema []).PutChange "A" (Value.vstr "oi")).PutChange "A"
      (Value.vstr "tchau")).changes "A" = some (Value.vstr "tchau") ∧
    ((Cast demoSchema []).PutChange "C" (Value.vstr "oi")).isValid = false ∧
    lookup ((Cast demoSchema []).PutChange "B" (Value.vstr "oi")).errors "B" =
      some ("type mismatch, expected " ++ goTypeName .int ++ " got " ++
        goTypeString (Value.vstr "oi")) :=
  ⟨((C7_putChange (Cast demoSchema []) "A" (Value.vstr "oi") (Value.vstr "tchau")).2.2
      ("A", .str) (by decide) (by decide) (by decide)).2,
   ((C7_putChange (Cast demoSchema []) "C" (Value.vstr "oi") (Value.vstr "oi")).1
      (by decide)).1,
   ((C7_putChange (Cast demoSchema []) "B" (Value.vstr "oi") (Value.vstr "oi")).2.1
      ("B", .int) (by decide) (by decide)).2.1⟩

/-- `ValidateRequired` on `a :: rest` is one `requiredStep` followed by
`ValidateRequired` on `rest`. -/
theorem validateRequired_cons (c : Changeset) (a : String) (rest : List String) :
    c.ValidateRequired (a :: rest) = (requiredStep c a).ValidateRequired rest :=
  rfl

/-- C8: `ValidateRequired` records the `"is required"` error and clears
validity for every listed field missing from `changes` — each missing
field of the list gets its own error, with no short-circuit. -/
theorem C8_required (c : Changeset) (need : List String) (field : String)
    (hmem : field ∈ need) (habs : lookup c.changes field = none) :
    lookup (c.ValidateRequired need).errors field = some "is required" ∧
    (c.ValidateRequired need).isValid = false := by
  induction need generalizing c with
  | nil => cases hmem
  | cons a rest ih =>
      rw [validateRequired_cons]
      rcases List.mem_cons.mp hmem with he | hrest
      · subst he
        have hstep : requiredStep c field =
            { c with
                isValid := false
                errors := upsert c.errors field "is required" } := by
          unfold requiredStep
          rw [habs]
        rw [hstep]
        exact ⟨validateRequired_keeps_required _ rest field (lookup_upsert_self _ _ _),
               validateRequired_keeps_invalid _ rest rfl⟩
      · refine ih _ hrest ?_
        rw [requiredStep_changes]
        exact habs

/-- C8 witness: casting the empty payload and requiring `A` and `B`
records an `"is required"` error for both fields, not just the first,
and invalidates. -/
theorem C8_required_witness :
    lookup ((Cast demoSchema []).ValidateRequired ["A", "B"]).errors "A" =
      some "is required" ∧
    lookup ((Cast demoSchema []).ValidateRequired ["A", "B"]).errors "B" =
      some "is required" ∧
    ((Cast demoSchema []).ValidateRequired ["A", "B"]).isValid = false :=
  ⟨(C8_required (Cast demoSchema []) ["A", "B"] "A" (by decide) (by decide)).1,
   (C8_required (Cast demoSchema []) ["A", "B"] "B" (by decide) (by decide)).1,
   (C8_required (Cast demoSchema []) ["A", "B"] "A" (by decide) (by decide)).2⟩

/-- C9: the invalid state is absorbing — from any invalid changeset,
running any further chain of operations (including validations that
succeed on other fields) never yields a valid changeset. -/
theorem C9_invalid_absorbing (c : Changeset) (ops : List ChainOp)
    (h : c.isValid = false) : (c.applyOps ops).isValid = false := by
  unfold Changeset.applyOps
  induction ops generalizing c with
  | nil => simpa using h
  | cons op rest ih =>
      simp only [List.foldl_cons]
      exact ih _ (applyOp_keeps_invalid c op h)

/-- C9 witness: a changeset invalidated by a missing required field
stays invalid although the subsequent length validation on field `A`
succeeds (its value `"hello"` has length 5) and a further `PutChange`
on `A` succeeds as well. -/
theorem C9_invalid_absorbing_witness :
    (((Cast demoSchema [("A", Value.vstr "hello")]).ValidateRequired ["B"]).applyOps
      [.validateChange "A" (.length 5 5), .putChange "A" (Value.vstr "world")]).isValid
      = false :=
  C9_invalid_absorbing ((Cast demoSchema [("A", Value.vstr "hello")]).ValidateRequired ["B"])
    [.validateChange "A" (.length 5 5), .putChange "A" (Value.vstr "world")] (by decide)

/-- Keys are preserved by the entry-wise map underlying
`TraverseErrors`. -/
theorem map_fst_entries {β α : Type} (g : String → β → α) (l : List (String × β)) :
    (l.map (fun p => (p.1, g p.1 p.2))).map Prod.fst = l.map Prod.fst := by
  induction l with
  | nil => rfl
  | cons p rest ih => simp [ih]

/-- C10: `TraverseErrors` invokes the callback once per entry of the
errors map (the produced map has exactly the error keys), passing the
validator stored for that field in `validations`; for a field that never
went through `ValidateChange` the lookup yields the absent validator
(`none`, the `nil` interface) — in particular `Cast` records no
validations at all and `AddError` never touches them. -/
theorem C10_traverse {α : Type} (c : Changeset)
    (cb : Changeset → String → Option Validator → α) (field err : String) :
    ((c.TraverseErrors cb).map Prod.fst = c.errors.map Prod.fst) ∧
    (lookup c.errors field = some err →
      lookup (c.TraverseErrors cb) field =
        some (cb c err (lookup c.validations field))) ∧
    (lookup c.validations field = none → lookup c.errors field = some err →
      lookup (c.TraverseErrors cb) field = some (cb c err none)) ∧
    (∀ schema params, (Cast schema params).validations = []) ∧
    ((c.AddError field err).validations = c.validations) := by
  refine ⟨?_, ?_, ?_, cast_validations, rfl⟩
  · exact map_fst_entries (fun f e => cb c e (lookup c.validations f)) c.errors
  · intro h
    have h2 := lookup_map_entries (fun f e => cb c e (lookup c.validations f)) c.errors field
    rw [h] at h2
    exact h2
  · intro hval h
    have h2 := lookup_map_entries (fun f e => cb c e (lookup c.validations f)) c.errors field
    rw [h, hval] at h2
    exact h2

/-- C10 witness: on the changeset holding only the cast-time type
mismatch on `A`, traversing errors hands the callback that error message
together with the absent (`nil`) validator. -/
theorem C10_traverse_witness :
    lookup ((Cast demoSchema [("A", Value.vint 123)]).TraverseErrors
        (fun _ e v => (e, v))) "A" =
      some ("type mismatch: expect string got int", (none : Option Validator)) :=
  (C10_traverse (Cast demoSchema [("A", Value.vint 123)])
    (fun _ e v => (e, v)) "A" "type mismatch: expect string got int").2.2.1
    (by decide) (by decide)

end Exo
